import Mathlib

/-!
Verification development for the Binance WebSocket latency-measurement
program (repository test_latency_ws_binance).

The Rust sources are shallowly embedded as executable Lean definitions:

* `extract_trade_data` and its scanning helpers embed src/src/extract.rs
  (the identical copy in src/src/main.rs lines 232-306 is the same code).
* `LatencyStats`, `LatencyStats.new`, `LatencyStats.update` embed the
  statistics aggregator of src/src/main.rs lines 27-145.
* `processMessage` embeds the body of the hot receive loop of
  src/src/main.rs lines 404-448.
* `csv_writer_thread` embeds the persistence consumer of
  src/src/csv_writer.rs.

Machine integers (Rust u64) are modelled as `Nat` with explicit `% 2^64`
where the source can wrap (atomic fetch_add, the digit accumulator).
Rust f64 values that are provably integral in this program (millisecond
timestamps below 2^53 and their differences) are modelled as `Int`; the
saturating `as u64` cast of an f64 is modelled by clamping into
[0, 2^64-1].
-/

set_option maxRecDepth 8000

/-- 2^64, the modulus of Rust u64 arithmetic. -/
def U64MOD : Nat := 2 ^ 64

/-- Byte values of an ASCII string, used to build concrete payloads. -/
def str2bytes (s : String) : List Nat := s.data.map (fun c => c.toNat)

/-- Embeds the space-skipping loop of extract.rs lines 24-26 / 55-57:
counts the run of leading space bytes (byte value 32). -/
def skipSpaces : List Nat → Nat
  | 32 :: rest => skipSpaces rest + 1
  | _ => 0

/-- Embeds the digit-reading loop of extract.rs lines 29-41 / 60-72:
accumulates `num = num * 10 + digit` (u64, wrapping) over the leading run
of ASCII digits and stops at the first non-digit byte (the comma and
closing-brace match arms of the source also just break).  Returns the value
and the number of digit bytes consumed (so `j > start` in the source is
`0 < consumed` here). -/
def readNum : List Nat → Nat → Nat × Nat
  | b :: rest, num =>
    if 48 ≤ b ∧ b ≤ 57 then
      let r := readNum rest ((num * 10 + (b - 48)) % U64MOD)
      (r.1, r.2 + 1)
    else (num, 0)
  | [], num => (num, 0)

/-- Number parse attempt at a key-pattern occurrence starting at byte
index `i`: the source sets `j = i + 4`, skips spaces, then reads digits
(extract.rs lines 22-41).  Returns `(num, digits consumed)`. -/
def parseNumAt (bs : List Nat) (i : Nat) : Nat × Nat :=
  let j0 := i + 4
  let start := j0 + skipSpaces (bs.drop j0)
  readNum (bs.drop start) 0

/-- The 4-byte pattern `"t":` searched for the trade id (extract.rs line 21). -/
def tPat : List Nat := [34, 116, 34, 58]

/-- The 4-byte pattern `"T":` searched for the trade time (extract.rs line 52). -/
def TPat : List Nat := [34, 84, 34, 58]

/-- Validity test applied to a parsed trade id: `num > 0`
(extract.rs line 43). -/
def validId (n : Nat) : Prop := 0 < n

instance validId.decide (n : Nat) : Decidable (validId n) :=
  inferInstanceAs (Decidable (0 < n))

/-- Validity test applied to a parsed trade time: `num > 1000000000000`
(extract.rs line 75). -/
def validTime (n : Nat) : Prop := 1000000000000 < n

instance validTime.decide (n : Nat) : Decidable (validTime n) :=
  inferInstanceAs (Decidable (1000000000000 < n))

/-- One key-search loop of extract.rs (lines 20-48 for `"t":`, lines 51-79
for `"T":`), as a fuel-indexed scan.  The source iterates
`i in 0..bytes.len().saturating_sub(20)`; each iteration compares the
4-byte slice at `i` with the pattern (always in bounds inside this range,
so the `?` on `bytes.get(i..i+4)` never fires), and on a match parses the
following number.  If the digit run is non-empty and the value passes the
validity test the loop stores the value and breaks; otherwise scanning
continues at `i + 1`. -/
def scanKeyAux (bs pat : List Nat) (valid : Nat → Prop) [DecidablePred valid] :
    Nat → Nat → Option Nat
  | 0, _ => none
  | fuel + 1, i =>
    if (bs.drop i).take 4 = pat then
      if 0 < (parseNumAt bs i).2 ∧ valid (parseNumAt bs i).1 then
        some (parseNumAt bs i).1
      else scanKeyAux bs pat valid fuel (i + 1)
    else scanKeyAux bs pat valid fuel (i + 1)

/-- Runs one key-search loop over the full range
`0 ≤ i < bytes.len().saturating_sub(20)` of the source. -/
def scanKey (bs pat : List Nat) (valid : Nat → Prop) [DecidablePred valid] :
    Option Nat :=
  scanKeyAux bs pat valid (bs.length - 20) 0

/-- Embeds `extract_trade_data` of src/src/extract.rs lines 14-88: scans
for the trade id (key `"t":`, value required nonzero) and the trade time
(key `"T":`, value required above 1000000000000) and returns the pair
only when both searches succeed. -/
def extract_trade_data (bs : List Nat) : Option (Nat × Nat) :=
  match scanKey bs tPat validId, scanKey bs TPat validTime with
  | some id, some ts => some (id, ts)
  | _, _ => none

/-- Embeds the statistics aggregator `LatencyStats` of src/src/main.rs
lines 27-58.  All `AtomicU64` fields are modelled as `Nat` holding a
value below 2^64; the `Mutex<VecDeque<f64>>` sample window is a
`List Int` of the (integral) millisecond latencies in arrival order.
The `start_time : SystemTime` field, used only for the throughput figure
of `get`, has no claim about it and is omitted (real wall-clock time is
outside the embedding). -/
structure LatencyStats where
  count : Nat
  total_latency : Nat
  min : Nat
  max : Nat
  recent_latencies : List Int
  max_samples : Nat
  last_trade_id : Nat
  gaps_detected : Nat
  out_of_order : Nat
deriving DecidableEq

/-- Embeds `LatencyStats::new` (src/src/main.rs lines 65-78): count, sum,
max, last id and both validation counters start at zero, and `min` starts
at `u64::MAX` so the first sample wins the comparison. -/
def LatencyStats.new (max_samples : Nat) : LatencyStats :=
  { count := 0
    total_latency := 0
    min := U64MOD - 1
    max := 0
    recent_latencies := []
    max_samples := max_samples
    last_trade_id := 0
    gaps_detected := 0
    out_of_order := 0 }

/-- The conversion `(latency_ms * 1000.0) as u64` of src/src/main.rs line
94.  `latency_ms` is an integral f64 in this program (difference of two
u64 millisecond timestamps, exact below 2^53), so the multiplication is
exact and the saturating f64-to-u64 `as` cast clamps negatives to 0 and
values above u64::MAX to u64::MAX. -/
def toUs (latency_ms : Int) : Nat :=
  Nat.min (latency_ms * 1000).toNat (U64MOD - 1)

/-- Embeds `LatencyStats::update` (src/src/main.rs lines 92-145), run by
the single hot-path producer, so each compare-and-swap loop reduces to
one conditional store:
(a) count and sum are incremented with wrapping u64 `fetch_add`;
(b) `min` is overwritten only when the new value is strictly smaller;
(c) `max` only when strictly larger;
(d) if a prior nonzero id was recorded, an id below it bumps
`out_of_order` by 1, and an id above `last_id + 1` bumps `gaps_detected`
by `trade_id - last_id - 1` (u64 wrapping arithmetic, written here as
adding multiples of 2^64 before the truncating subtraction);
(e) the latency is pushed into the sample window and the oldest entry
popped if the window now exceeds `max_samples`. -/
def LatencyStats.update (s : LatencyStats) (trade_id : Nat) (latency_ms : Int) :
    LatencyStats :=
  let latency_us := toUs latency_ms
  let count := (s.count + 1) % U64MOD
  let total_latency := (s.total_latency + latency_us) % U64MOD
  let newMin := if latency_us ≥ s.min then s.min else latency_us
  let newMax := if latency_us ≤ s.max then s.max else latency_us
  let gapsOoo :=
    if 0 < s.last_trade_id then
      if trade_id < s.last_trade_id then
        (s.gaps_detected, (s.out_of_order + 1) % U64MOD)
      else if (s.last_trade_id + 1) % U64MOD < trade_id then
        ((s.gaps_detected +
            (trade_id + 2 * U64MOD - s.last_trade_id - 1) % U64MOD) % U64MOD,
          s.out_of_order)
      else (s.gaps_detected, s.out_of_order)
    else (s.gaps_detected, s.out_of_order)
  let pushed := s.recent_latencies ++ [latency_ms]
  let recent := if s.max_samples < pushed.length then pushed.drop 1 else pushed
  { count := count
    total_latency := total_latency
    min := newMin
    max := newMax
    recent_latencies := recent
    max_samples := s.max_samples
    last_trade_id := trade_id
    gaps_detected := gapsOoo.1
    out_of_order := gapsOoo.2 }

/-- Folds a sequence of `update(trade_id, latency_ms)` calls over a
statistics value, in call order. -/
def foldUpdate (s : LatencyStats) (calls : List (Nat × Int)) : LatencyStats :=
  calls.foldl (fun st c => st.update c.1 c.2) s

/-- The push-and-evict step applied to the bounded sample window by one
`update` call (src/src/main.rs lines 138-144). -/
def pushWindow (n : Nat) (w : List Int) (l : Int) : List Int :=
  if n < (w ++ [l]).length then (w ++ [l]).drop 1 else w ++ [l]

/-- Renders an integral f64 with the Rust two-fixed-decimals format
specifier, as used for `latency_ms` in every record line.  In this
program `latency_ms` is always integral (difference of integer
millisecond timestamps), so the rendering is the integer followed by
".00". -/
def fmt2 (v : Int) : String := toString v ++ ".00"

/-- The header line written once before any record
(src/src/main.rs line 351, src/src/csv_writer.rs line 41,
src/src/csv_buffer.rs line 27). -/
def headerLine : String := "trade_id,ts,recv_ts,latency_ms,machine_id"

/-- One record-line rendering of the writeln call of src/src/main.rs line
424: the five fields trade_id, ts, recv_ts, latency_ms (two fixed
decimals) and machine_id, comma separated. -/
def fmtLine (trade_id ts recv_ts : Nat) (latency_ms : Int)
    (machine_id : String) : String :=
  toString trade_id ++ "," ++ toString ts ++ "," ++ toString recv_ts ++ ","
    ++ fmt2 latency_ms ++ "," ++ machine_id

/-- Observable state of the main loop: the aggregator plus the record
lines written to the CSV file so far (header excluded; the header is
written once before the loop starts, main.rs line 351). -/
structure MainState where
  stats : LatencyStats
  csv_lines : List String
deriving DecidableEq

/-- Embeds the body of the hot receive loop of src/src/main.rs lines
404-448 for one text message: stamp `recv_ts` (u64 epoch milliseconds),
run `extract_trade_data`; on success compute
`latency_ms = recv_ts as f64 - ts as f64` (exact integer arithmetic for
these magnitudes, no calibration term anywhere), update the stats and
append one CSV line when persistence is enabled; on a parse miss do
nothing. -/
def processMessage (machine_id : String) (csv_enabled : Bool)
    (st : MainState) (recv_ts : Nat) (text : List Nat) : MainState :=
  match extract_trade_data text with
  | some (tid, ts) =>
    let latency_ms : Int := (recv_ts : Int) - (ts : Int)
    let stats := st.stats.update tid latency_ms
    let csv_lines :=
      if csv_enabled then
        st.csv_lines ++ [fmtLine tid ts recv_ts latency_ms machine_id]
      else st.csv_lines
    { stats := stats, csv_lines := csv_lines }
  | none => st

/-- A record handed over the persistence channel, embedding `TradeRecord`
of src/src/types.rs. -/
structure TradeRecord where
  trade_id : Nat
  ts : Nat
  recv_ts : Nat
  latency_ms : Int
  machine_id : String
deriving DecidableEq

/-- The record-line rendering of src/src/csv_writer.rs lines 49-55: the
five comma-separated fields, latency with two fixed decimals; the
trailing newline of the source format string is handled by the line-list
file model. -/
def fmtRecord (r : TradeRecord) : String :=
  toString r.trade_id ++ "," ++ toString r.ts ++ "," ++ toString r.recv_ts
    ++ "," ++ fmt2 r.latency_ms ++ "," ++ r.machine_id

/-- Byte size of the pending in-memory buffer, modelled as the lines it
holds plus one newline byte each (the source buffer stores the formatted
line bytes including the trailing newline). -/
def bufBytes (buffer : List String) : Nat :=
  (buffer.map (fun l => l.utf8ByteSize + 1)).sum

/-- Embeds the consume loop of `csv_writer_thread`
(src/src/csv_writer.rs lines 43-74).  The single-producer single-consumer
mpsc channel is modelled by the list of records sent before the producer
closed it; `rx.recv()` yields them in send order and then errors, ending
the loop.  Each record is formatted and appended to the in-memory buffer;
after every 1000th record (wrapping u64 count) or when the buffer reaches
1 MiB the buffer is written to the file and cleared; once the channel is
drained the residual buffer, if non-empty, is flushed.  The file is
modelled as the list of lines written. -/
def csvWriterLoop : List TradeRecord → Nat → List String → List String →
    List String
  | [], _, buffer, file => if buffer ≠ [] then file ++ buffer else file
  | r :: rest, count, buffer, file =>
    if ((count + 1) % U64MOD) % 1000 = 0 ∨
        1048576 ≤ bufBytes (buffer ++ [fmtRecord r]) then
      csvWriterLoop rest ((count + 1) % U64MOD) []
        (file ++ (buffer ++ [fmtRecord r]))
    else
      csvWriterLoop rest ((count + 1) % U64MOD) (buffer ++ [fmtRecord r]) file

/-- Embeds `csv_writer_thread` (src/src/csv_writer.rs lines 15-77): write
the header line, then consume the channel until it closes.  The CPU
affinity and priority calls touch no observable record state and are
outside the embedding. -/
def csv_writer_thread (records : List TradeRecord) : List String :=
  csvWriterLoop records 0 [] [headerLine]

/-- Modelled from the spec: section 4.2 of the spec (ClockCalibrator)
describes a startup calibration phase whose code is not present anywhere
under src/; no file in src/ computes or subtracts a clock offset.
Following the words of the spec, each sample is a pair
`(offset_us, round_trip_us)`; after collecting samples the calibrator
sorts by round trip ascending and selects the offset of the sample with
the smallest round trip, and defaults to a zero offset when no sample
succeeded. -/
def calibrate : List (Int × Nat) → Int
  | [] => 0
  | s :: rest => (rest.foldl (fun best x => if x.2 < best.2 then x else best) s).1

/-- The latency formula asserted by the claim (spec section 4.5):
`latency = arrival_time - event_time - calibration_offset`.  This
definition follows the words of the spec and exists to be compared with
the computation of the code in `processMessage`. -/
def claimLatency (arrival_time event_time : Nat) (calibration_offset : Int) :
    Int :=
  (arrival_time : Int) - (event_time : Int) - calibration_offset

/-- A scan position accepts when the 4-byte pattern matches there, the
following digit run is non-empty, and the parsed value passes the
validity test; this is exactly the store-and-break condition of the
source loops. -/
def okAt (bs pat : List Nat) (valid : Nat → Prop) (i : Nat) : Prop :=
  (bs.drop i).take 4 = pat ∧ 0 < (parseNumAt bs i).2 ∧ valid (parseNumAt bs i).1

instance okAt.decide (bs pat : List Nat) (valid : Nat → Prop)
    [DecidablePred valid] (i : Nat) : Decidable (okAt bs pat valid i) :=
  inferInstanceAs (Decidable (_ ∧ _ ∧ _))

theorem scanKeyAux_none (bs pat : List Nat) (valid : Nat → Prop)
    [DecidablePred valid] :
    ∀ (fuel i : Nat), (∀ k, k < fuel → ¬ okAt bs pat valid (i + k)) →
      scanKeyAux bs pat valid fuel i = none := by
  intro fuel
  induction fuel with
  | zero => intro i _; rfl
  | succ n ih =>
    intro i h
    have h0 : ¬ okAt bs pat valid i := by
      have := h 0 (Nat.succ_pos n)
      simpa using this
    have hrec : scanKeyAux bs pat valid n (i + 1) = none := by
      refine ih (i + 1) (fun k hk => ?_)
      have := h (k + 1) (Nat.succ_lt_succ hk)
      have harith : i + (k + 1) = i + 1 + k := by omega
      rw [harith] at this
      exact this
    show (if (bs.drop i).take 4 = pat then _ else _) = none
    by_cases hm : (bs.drop i).take 4 = pat
    · rw [if_pos hm]
      have hko : ¬ (0 < (parseNumAt bs i).2 ∧ valid (parseNumAt bs i).1) :=
        fun hc => h0 ⟨hm, hc.1, hc.2⟩
      rw [if_neg hko]
      exact hrec
    · rw [if_neg hm]
      exact hrec

theorem scanKeyAux_sound (bs pat : List Nat) (valid : Nat → Prop)
    [DecidablePred valid] :
    ∀ (fuel i : Nat) (v : Nat),
      scanKeyAux bs pat valid fuel i = some v → valid v := by
  intro fuel
  induction fuel with
  | zero => intro i v h; exact absurd h (by simp [scanKeyAux])
  | succ n ih =>
    intro i v h
    by_cases hm : (bs.drop i).take 4 = pat
    · by_cases hc : 0 < (parseNumAt bs i).2 ∧ valid (parseNumAt bs i).1
      · have : scanKeyAux bs pat valid (n + 1) i = some (parseNumAt bs i).1 := by
          show (if _ then _ else _) = _
          rw [if_pos hm, if_pos hc]
        rw [this] at h
        cases h
        exact hc.2
      · have : scanKeyAux bs pat valid (n + 1) i =
            scanKeyAux bs pat valid n (i + 1) := by
          show (if _ then _ else _) = _
          rw [if_pos hm, if_neg hc]
        rw [this] at h
        exact ih (i + 1) v h
    · have : scanKeyAux bs pat valid (n + 1) i =
          scanKeyAux bs pat valid n (i + 1) := by
        show (if _ then _ else _) = _
        rw [if_neg hm]
      rw [this] at h
      exact ih (i + 1) v h

theorem scanKeyAux_first (bs pat : List Nat) (valid : Nat → Prop)
    [DecidablePred valid] :
    ∀ (fuel k0 i : Nat), k0 < fuel → okAt bs pat valid (i + k0) →
      (∀ k, k < k0 → ¬ okAt bs pat valid (i + k)) →
      scanKeyAux bs pat valid fuel i = some (parseNumAt bs (i + k0)).1 := by
  intro fuel
  induction fuel with
  | zero => intro k0 i hk; exact absurd hk (Nat.not_lt_zero k0)
  | succ n ih =>
    intro k0 i hk hok hmin
    cases k0 with
    | zero =>
      have hok0 : okAt bs pat valid i := by simpa using hok
      show (if _ then _ else _) = _
      rw [if_pos hok0.1, if_pos ⟨hok0.2.1, hok0.2.2⟩]
      simp
    | succ m =>
      have h0 : ¬ okAt bs pat valid i := by
        have := hmin 0 (Nat.succ_pos m)
        simpa using this
      have step : scanKeyAux bs pat valid (n + 1) i =
          scanKeyAux bs pat valid n (i + 1) := by
        show (if _ then _ else _) = _
        by_cases hm : (bs.drop i).take 4 = pat
        · rw [if_pos hm,
            if_neg (fun hc => h0 ⟨hm, hc.1, hc.2⟩)]
        · rw [if_neg hm]
      rw [step]
      have harith : i + (m + 1) = i + 1 + m := by omega
      rw [harith] at hok
      have hres := ih m (i + 1) (Nat.lt_of_succ_lt_succ hk) hok
        (fun k hkm => by
          have := hmin (k + 1) (Nat.succ_lt_succ hkm)
          have h2 : i + (k + 1) = i + 1 + k := by omega
          rw [h2] at this
          exact this)
      rw [hres, harith]

theorem scanKey_none (bs pat : List Nat) (valid : Nat → Prop)
    [DecidablePred valid]
    (h : ∀ k, k < bs.length - 20 → ¬ okAt bs pat valid k) :
    scanKey bs pat valid = none := by
  unfold scanKey
  exact scanKeyAux_none bs pat valid (bs.length - 20) 0
    (fun k hk => by simpa using h k hk)

theorem scanKey_first (bs pat : List Nat) (valid : Nat → Prop)
    [DecidablePred valid] (i : Nat) (hi : i < bs.length - 20)
    (hok : okAt bs pat valid i) (hmin : ∀ k, k < i → ¬ okAt bs pat valid k) :
    scanKey bs pat valid = some (parseNumAt bs i).1 := by
  unfold scanKey
  have := scanKeyAux_first bs pat valid (bs.length - 20) i 0 hi
    (by simpa using hok) (fun k hk => by simpa using hmin k hk)
  simpa using this

theorem extract_eq_some (bs : List Nat) (id ts : Nat)
    (h1 : scanKey bs tPat validId = some id)
    (h2 : scanKey bs TPat validTime = some ts) :
    extract_trade_data bs = some (id, ts) := by
  unfold extract_trade_data
  rw [h1, h2]

theorem extract_eq_none_left (bs : List Nat)
    (h1 : scanKey bs tPat validId = none) :
    extract_trade_data bs = none := by
  unfold extract_trade_data
  rw [h1]

theorem extract_eq_none_right (bs : List Nat)
    (h2 : scanKey bs TPat validTime = none) :
    extract_trade_data bs = none := by
  unfold extract_trade_data
  rw [h2]
  rcases scanKey bs tPat validId with _ | v <;> rfl

theorem update_count (s : LatencyStats) (id : Nat) (l : Int) :
    (s.update id l).count = (s.count + 1) % U64MOD := rfl

theorem update_min_eq (s : LatencyStats) (id : Nat) (l : Int) :
    (s.update id l).min = min s.min (toUs l) := by
  show (if toUs l ≥ s.min then s.min else toUs l) = _
  rcases le_or_lt s.min (toUs l) with h | h
  · rw [if_pos h]; omega
  · rw [if_neg (not_le.mpr h)]; omega

theorem update_max_eq (s : LatencyStats) (id : Nat) (l : Int) :
    (s.update id l).max = max s.max (toUs l) := by
  show (if toUs l ≤ s.max then s.max else toUs l) = _
  rcases le_or_lt (toUs l) s.max with h | h
  · rw [if_pos h]; omega
  · rw [if_neg (not_le.mpr h)]; omega

theorem update_recent (s : LatencyStats) (id : Nat) (l : Int) :
    (s.update id l).recent_latencies =
      pushWindow s.max_samples s.recent_latencies l := rfl

theorem update_max_samples (s : LatencyStats) (id : Nat) (l : Int) :
    (s.update id l).max_samples = s.max_samples := rfl

theorem foldUpdate_nil (s : LatencyStats) : foldUpdate s [] = s := rfl

theorem foldUpdate_cons (s : LatencyStats) (c : Nat × Int)
    (cs : List (Nat × Int)) :
    foldUpdate s (c :: cs) = foldUpdate (s.update c.1 c.2) cs := rfl

theorem foldUpdate_count (cs : List (Nat × Int)) :
    ∀ (s : LatencyStats), s.count < U64MOD →
      (foldUpdate s cs).count = (s.count + cs.length) % U64MOD := by
  induction cs with
  | nil =>
    intro s hs
    rw [foldUpdate_nil]
    simpa using (Nat.mod_eq_of_lt hs).symm
  | cons c cs ih =>
    intro s hs
    rw [foldUpdate_cons]
    have hlt : (s.update c.1 c.2).count < U64MOD := by
      rw [update_count]
      exact Nat.mod_lt _ (by decide)
    rw [ih _ hlt, update_count, Nat.mod_add_mod]
    congr 1
    simp [List.length_cons]
    omega

theorem foldUpdate_min (cs : List (Nat × Int)) :
    ∀ (s : LatencyStats),
      (foldUpdate s cs).min ≤ s.min ∧
      ∀ c ∈ cs, (foldUpdate s cs).min ≤ toUs c.2 := by
  induction cs with
  | nil => intro s; exact ⟨Nat.le_refl _, by simp⟩
  | cons c cs ih =>
    intro s
    rw [foldUpdate_cons]
    rcases ih (s.update c.1 c.2) with ⟨hle, hmem⟩
    have hmin : (s.update c.1 c.2).min = min s.min (toUs c.2) :=
      update_min_eq s c.1 c.2
    constructor
    · exact hle.trans (by rw [hmin]; exact min_le_left _ _)
    · intro d hd
      rcases List.mem_cons.mp hd with hdc | hdcs
      · subst hdc
        exact hle.trans (by rw [hmin]; exact min_le_right _ _)
      · exact hmem d hdcs

theorem foldUpdate_max (cs : List (Nat × Int)) :
    ∀ (s : LatencyStats),
      s.max ≤ (foldUpdate s cs).max ∧
      ∀ c ∈ cs, toUs c.2 ≤ (foldUpdate s cs).max := by
  induction cs with
  | nil => intro s; exact ⟨Nat.le_refl _, by simp⟩
  | cons c cs ih =>
    intro s
    rw [foldUpdate_cons]
    rcases ih (s.update c.1 c.2) with ⟨hle, hmem⟩
    have hmax : (s.update c.1 c.2).max = max s.max (toUs c.2) :=
      update_max_eq s c.1 c.2
    constructor
    · refine le_trans ?_ hle
      rw [hmax]; exact le_max_left _ _
    · intro d hd
      rcases List.mem_cons.mp hd with hdc | hdcs
      · subst hdc
        refine le_trans ?_ hle
        rw [hmax]; exact le_max_right _ _
      · exact hmem d hdcs

theorem foldl_pushWindow (ls : List Int) :
    ∀ (n : Nat) (w : List Int), w.length ≤ n →
      ls.foldl (pushWindow n) w =
        (w ++ ls).drop ((w.length + ls.length) - n) := by
  induction ls with
  | nil =>
    intro n w hw
    rw [List.foldl_nil]
    have h0 : w.length + ([] : List Int).length - n = 0 := by
      simp
      omega
    rw [h0, List.drop_zero, List.append_nil]
  | cons l rest ih =>
    intro n w hw
    rw [List.foldl_cons]
    have hA : w ++ l :: rest = (w ++ [l]) ++ rest := by simp
    by_cases h : w.length < n
    · have hw1 : pushWindow n w l = w ++ [l] := by
        unfold pushWindow
        rw [if_neg (by simp; omega)]
      rw [hw1, ih n (w ++ [l]) (by simp; omega), hA]
      congr 1
      simp
      omega
    · have hwn : w.length = n := Nat.le_antisymm hw (Nat.not_lt.mp h)
      have hw1 : pushWindow n w l = (w ++ [l]).drop 1 := by
        unfold pushWindow
        rw [if_pos (by simp; omega)]
      rw [hw1]
      have hlen : ((w ++ [l]).drop 1).length ≤ n := by simp; omega
      rw [ih n _ hlen, hA]
      have e1 : (w ++ [l]).drop 1 ++ rest = ((w ++ [l]) ++ rest).drop 1 :=
        (List.drop_append_of_le_length (by simp)).symm
      rw [e1, List.drop_drop]
      congr 1
      simp
      omega

theorem foldUpdate_recent (cs : List (Nat × Int)) :
    ∀ s : LatencyStats,
      (foldUpdate s cs).max_samples = s.max_samples ∧
      (foldUpdate s cs).recent_latencies =
        (cs.map Prod.snd).foldl (pushWindow s.max_samples) s.recent_latencies := by
  induction cs with
  | nil => intro s; exact ⟨rfl, rfl⟩
  | cons c cs ih =>
    intro s
    rw [foldUpdate_cons, List.map_cons, List.foldl_cons]
    rcases ih (s.update c.1 c.2) with ⟨h1, h2⟩
    refine ⟨by rw [h1, update_max_samples], ?_⟩
    rw [h2, update_max_samples, update_recent]

theorem csvWriterLoop_eq (records : List TradeRecord) :
    ∀ (count : Nat) (buffer file : List String),
      csvWriterLoop records count buffer file =
        file ++ buffer ++ records.map fmtRecord := by
  induction records with
  | nil =>
    intro c b f
    show (if b ≠ [] then f ++ b else f) = f ++ b ++ []
    by_cases hb : b = []
    · rw [if_neg (by simpa using hb)]
      subst hb
      simp
    · rw [if_pos hb]
      simp
  | cons r rest ih =>
    intro c b f
    show (if _ then csvWriterLoop rest _ [] (f ++ (b ++ [fmtRecord r]))
          else csvWriterLoop rest _ (b ++ [fmtRecord r]) f) =
      f ++ b ++ (r :: rest).map fmtRecord
    by_cases hc : ((c + 1) % U64MOD) % 1000 = 0 ∨
        1048576 ≤ bufBytes (b ++ [fmtRecord r])
    · rw [if_pos hc, ih]
      simp
    · rw [if_neg hc, ih]
      simp

/-- C3: after any finite sequence of `update(id, latency)` calls on a
fresh `LatencyStats`, `count` equals the number of calls (the counter is
a u64, so the count of calls is assumed below the 2^64 wrap of
`fetch_add`), and the stored `min` is at most every submitted latency
(after the microsecond conversion applied by `update`) which is at most
the stored `max`; before the first update `min` holds `u64::MAX` and
`max` holds zero. -/
theorem stats_minmax_count (n : Nat) (cs : List (Nat × Int))
    (h : cs.length < U64MOD) :
    ((LatencyStats.new n).min = U64MOD - 1 ∧ (LatencyStats.new n).max = 0)
    ∧ (foldUpdate (LatencyStats.new n) cs).count = cs.length
    ∧ ∀ c ∈ cs, (foldUpdate (LatencyStats.new n) cs).min ≤ toUs c.2
        ∧ toUs c.2 ≤ (foldUpdate (LatencyStats.new n) cs).max := by
  refine ⟨⟨rfl, rfl⟩, ?_, ?_⟩
  · rw [foldUpdate_count cs (LatencyStats.new n)
      (by show (0 : Nat) < U64MOD; decide)]
    show (0 + cs.length) % U64MOD = cs.length
    rw [Nat.zero_add, Nat.mod_eq_of_lt h]
  · intro c hc
    exact ⟨(foldUpdate_min cs (LatencyStats.new n)).2 c hc,
      (foldUpdate_max cs (LatencyStats.new n)).2 c hc⟩

/-- Witness for C3 at a concrete call sequence. -/
theorem stats_minmax_count_witness :
    (foldUpdate (LatencyStats.new 10) [(1, 5), (2, 3)]).count = 2
    ∧ (foldUpdate (LatencyStats.new 10) [(1, 5), (2, 3)]).min ≤ toUs 3 := by
  have h := stats_minmax_count 10 [(1, 5), (2, 3)] (by decide)
  exact ⟨h.2.1, (h.2.2 (2, 3) (by decide)).1⟩

/-- C5: for every configured capacity `n` and every update sequence, the
recent-sample window of the final state holds exactly the last `n`
submitted latencies in arrival order (all of them while fewer than `n`
were submitted), and its length never exceeds `n`; since this holds for
every sequence it holds at every intermediate state of a run. -/
theorem window_bounded (n : Nat) (cs : List (Nat × Int)) :
    (foldUpdate (LatencyStats.new n) cs).recent_latencies =
      (cs.map Prod.snd).drop (cs.length - n)
    ∧ (foldUpdate (LatencyStats.new n) cs).recent_latencies.length ≤ n := by
  rcases foldUpdate_recent cs (LatencyStats.new n) with ⟨_, hrec⟩
  have hrec2 : (foldUpdate (LatencyStats.new n) cs).recent_latencies =
      (cs.map Prod.snd).foldl (pushWindow n) [] := hrec
  have hw := foldl_pushWindow (cs.map Prod.snd) n [] (by simp)
  have hmain : (foldUpdate (LatencyStats.new n) cs).recent_latencies =
      (cs.map Prod.snd).drop (cs.length - n) := by
    rw [hrec2, hw]
    simp
  refine ⟨hmain, ?_⟩
  rw [hmain]
  simp
  omega

/-- C7: a message on which `extract_trade_data` returns `none` leaves the
whole observable state (all statistics counters, the sample window, the
persisted lines) unchanged, and the loop body is a total function, so no
error is raised on the parse-miss path. -/
theorem parse_miss_noop (machine_id : String) (csv_enabled : Bool)
    (st : MainState) (recv_ts : Nat) (text : List Nat)
    (h : extract_trade_data text = none) :
    processMessage machine_id csv_enabled st recv_ts text = st := by
  unfold processMessage
  rw [h]

/-- Witness for C7 at a concrete unparseable payload. -/
theorem parse_miss_noop_witness :
    processMessage "m" true ⟨LatencyStats.new 3, []⟩ 5 (str2bytes "hello") =
      ⟨LatencyStats.new 3, []⟩ :=
  parse_miss_noop "m" true ⟨LatencyStats.new 3, []⟩ 5 (str2bytes "hello")
    (by decide)

/-- C8: for every finite sequence of records sent over the channel before
the producer closes it, the consumer thread writes the header followed by
exactly one line per record, in send order; the residual buffer is
flushed after the channel closes, so no buffered record is dropped at
shutdown. -/
theorem csv_writer_drains (records : List TradeRecord) :
    csv_writer_thread records = headerLine :: records.map fmtRecord
    ∧ ∀ r ∈ records, fmtRecord r ∈ csv_writer_thread records := by
  have h := csvWriterLoop_eq records 0 [] [headerLine]
  have h1 : csv_writer_thread records = headerLine :: records.map fmtRecord := by
    unfold csv_writer_thread
    rw [h]
    simp
  refine ⟨h1, ?_⟩
  intro r hr
  rw [h1]
  exact List.mem_cons_of_mem _ (List.mem_map_of_mem fmtRecord hr)

/-- Witness for C8 at a concrete record list. -/
theorem csv_writer_drains_witness :
    csv_writer_thread [⟨1, 2, 3, 4, "m"⟩] =
      [headerLine, fmtRecord ⟨1, 2, 3, 4, "m"⟩]
    ∧ fmtRecord ⟨1, 2, 3, 4, "m"⟩ ∈ csv_writer_thread [⟨1, 2, 3, 4, "m"⟩] := by
  have h := csv_writer_drains [⟨1, 2, 3, 4, "m"⟩]
  exact ⟨h.1, h.2 ⟨1, 2, 3, 4, "m"⟩ (by simp)⟩

/-- C9: the persisted output is the header line
`trade_id,ts,recv_ts,latency_ms,machine_id` exactly once, before any
record line, and every record line carries, in this order, the
identifier, event time, arrival time, the latency rendered with two
fixed decimals, and the origin label; the inline writer of the main loop
renders lines identically. -/
theorem csv_record_format (records : List TradeRecord) :
    csv_writer_thread records = headerLine :: records.map fmtRecord
    ∧ (∀ r : TradeRecord,
        fmtRecord r = toString r.trade_id ++ "," ++ toString r.ts ++ ","
          ++ toString r.recv_ts ++ "," ++ (toString r.latency_ms ++ ".00")
          ++ "," ++ r.machine_id)
    ∧ (∀ (tid ts recv : Nat) (lat : Int) (mid : String),
        fmtLine tid ts recv lat mid =
          fmtRecord { trade_id := tid, ts := ts, recv_ts := recv,
                      latency_ms := lat, machine_id := mid }) := by
  refine ⟨?_, fun r => rfl, fun tid ts recv lat mid => rfl⟩
  have h := csvWriterLoop_eq records 0 [] [headerLine]
  unfold csv_writer_thread
  rw [h]
  simp

/-- C2 counterexample: the payload below has a non-digit byte (the `x`,
byte 120, with no spaces skipped) immediately after the first `"t":` key
delimiter, yet `extract_trade_data` does not return `none`: the scan
skips the failed occurrence and accepts the later `"t":123`, so the
claim that such a payload yields no result is false. -/
theorem extract_nondigit_not_none :
    ((str2bytes "\x7b\"t\":x,\"t\":123,\"T\":1700000000000,\"pppppppppp\":1\x7d").drop 1).take 4
        = tPat
    ∧ ((str2bytes "\x7b\"t\":x,\"t\":123,\"T\":1700000000000,\"pppppppppp\":1\x7d").drop 5).take 1
        = [120]
    ∧ skipSpaces
        ((str2bytes "\x7b\"t\":x,\"t\":123,\"T\":1700000000000,\"pppppppppp\":1\x7d").drop 5) = 0
    ∧ (parseNumAt
        (str2bytes "\x7b\"t\":x,\"t\":123,\"T\":1700000000000,\"pppppppppp\":1\x7d") 1).2 = 0
    ∧ extract_trade_data
        (str2bytes "\x7b\"t\":x,\"t\":123,\"T\":1700000000000,\"pppppppppp\":1\x7d")
        = some (123, 1700000000000) := by
  refine ⟨rfl, rfl, rfl, rfl, ?_⟩
  decide

/-- C2 (amended): `extract_trade_data` returns the values of the first
occurrence of each key pattern, scanning positions `i < length - 20` left
to right, whose digit run (after skipping spaces) is non-empty and whose
value passes the validity test (nonzero id, time above 10^12); it returns
`none` when either key has no such occurrence in that range (in
particular when a key pattern is missing).  An occurrence followed by a
non-digit is skipped, not fatal to the payload. -/
theorem extract_first_valid (bs : List Nat) :
    (∀ i1 i2 : Nat,
      i1 < bs.length - 20 → okAt bs tPat validId i1 →
      (∀ k, k < i1 → ¬ okAt bs tPat validId k) →
      i2 < bs.length - 20 → okAt bs TPat validTime i2 →
      (∀ k, k < i2 → ¬ okAt bs TPat validTime k) →
      extract_trade_data bs = some ((parseNumAt bs i1).1, (parseNumAt bs i2).1))
    ∧ ((∀ k, k < bs.length - 20 → ¬ okAt bs tPat validId k) →
        extract_trade_data bs = none)
    ∧ ((∀ k, k < bs.length - 20 → ¬ okAt bs TPat validTime k) →
        extract_trade_data bs = none) := by
  refine ⟨?_, ?_, ?_⟩
  · intro i1 i2 h1 hok1 hmin1 h2 hok2 hmin2
    exact extract_eq_some bs _ _
      (scanKey_first bs tPat validId i1 h1 hok1 hmin1)
      (scanKey_first bs TPat validTime i2 h2 hok2 hmin2)
  · intro h
    exact extract_eq_none_left bs (scanKey_none bs tPat validId h)
  · intro h
    exact extract_eq_none_right bs (scanKey_none bs TPat validTime h)

/-- Witness for C2 (amended) on a concrete payload whose first valid
occurrences sit at indices 1 and 8. -/
theorem extract_first_valid_witness :
    extract_trade_data
        (str2bytes "\x7b\"t\":77,\"T\":1700000000000,\"pppppppppp\":1\x7d")
      = some (77, 1700000000000) := by
  have h := (extract_first_valid
      (str2bytes "\x7b\"t\":77,\"T\":1700000000000,\"pppppppppp\":1\x7d")).1
    1 8 (by decide) (by decide) (by decide) (by decide) (by decide) (by decide)
  rw [h]
  decide

/-- C6: the trade-id scan never returns zero (a parsed id of zero is
treated as invalid at its occurrence), the trade-time scan only returns
values above the fixed plausibility bound 1000000000000, and a payload
whose every `"T":` occurrence in the scanned range parses to an empty
digit run or a value at or below that bound yields `none`. -/
theorem extract_validity (bs : List Nat) :
    (∀ v : Nat, scanKey bs tPat validId = some v → 0 < v)
    ∧ (∀ v : Nat, scanKey bs TPat validTime = some v → 1000000000000 < v)
    ∧ ((∀ i, i < bs.length - 20 → (bs.drop i).take 4 = TPat →
          (parseNumAt bs i).2 = 0 ∨ (parseNumAt bs i).1 ≤ 1000000000000) →
        extract_trade_data bs = none) := by
  refine ⟨?_, ?_, ?_⟩
  · intro v h
    exact scanKeyAux_sound bs tPat validId (bs.length - 20) 0 v h
  · intro v h
    exact scanKeyAux_sound bs TPat validTime (bs.length - 20) 0 v h
  · intro h
    refine extract_eq_none_right bs (scanKey_none bs TPat validTime ?_)
    intro k hk hok
    rcases h k hk hok.1 with h0 | h0
    · exact absurd hok.2.1 (by rw [h0]; exact Nat.lt_irrefl 0)
    · exact absurd hok.2.2 (Nat.not_lt.mpr h0)

/-- Witness for C6: a payload whose only time field is 999 (at or below
the bound) yields `none`. -/
theorem extract_validity_witness :
    extract_trade_data
        (str2bytes "\x7b\"t\":77,\"T\":999,\"paddingpaddingpad\":1\x7d") = none :=
  (extract_validity
      (str2bytes "\x7b\"t\":77,\"T\":999,\"paddingpaddingpad\":1\x7d")).2.2
    (by decide)

/-- C10: the key search only considers match positions `i` with
`i < length - 20` (saturating), so every input of byte length at most 20
yields `none`, and a key pattern whose every occurrence begins within the
last 20 bytes is not found by its scan. -/
theorem extract_scan_range (bs : List Nat) :
    (bs.length ≤ 20 → extract_trade_data bs = none)
    ∧ (∀ (pat : List Nat) (valid : Nat → Prop) [DecidablePred valid],
        (∀ i, i < bs.length - 20 → ¬ (bs.drop i).take 4 = pat) →
        scanKey bs pat valid = none) := by
  constructor
  · intro h
    have h0 : bs.length - 20 = 0 := by omega
    refine extract_eq_none_left bs ?_
    unfold scanKey
    rw [h0]
    rfl
  · intro pat valid inst h
    exact scanKey_none bs pat valid (fun k hk hok => h k hk hok.1)

/-- Witness for C10: a 20-byte payload yields `none`, and a payload whose
only `"t":` occurrence starts inside the last 20 bytes is not found. -/
theorem extract_scan_range_witness :
    extract_trade_data (str2bytes "\x7b\"t\":5,\"T\":1700000\x7d") = none
    ∧ scanKey (str2bytes "aaaaaaaaaaaaaaaaaaaaaaaaaa\"t\":55") tPat validId
        = none := by
  constructor
  · exact (extract_scan_range (str2bytes "\x7b\"t\":5,\"T\":1700000\x7d")).1
      (by decide)
  · exact (extract_scan_range
        (str2bytes "aaaaaaaaaaaaaaaaaaaaaaaaaa\"t\":55")).2 tPat validId
      (by decide)

theorem update_gapsOoo (s : LatencyStats) (id : Nat) (l : Int) :
    ((s.update id l).gaps_detected, (s.update id l).out_of_order) =
      if 0 < s.last_trade_id then
        if id < s.last_trade_id then
          (s.gaps_detected, (s.out_of_order + 1) % U64MOD)
        else if (s.last_trade_id + 1) % U64MOD < id then
          ((s.gaps_detected +
              (id + 2 * U64MOD - s.last_trade_id - 1) % U64MOD) % U64MOD,
            s.out_of_order)
        else (s.gaps_detected, s.out_of_order)
      else (s.gaps_detected, s.out_of_order) := rfl

/-- C4: with a prior nonzero recorded id (ids being u64 values), an
incoming id smaller than the prior one increments the out-of-order
counter by one and leaves the gap counter unchanged, and an incoming id
exceeding the prior one by more than one increments the gap counter by
the id difference minus one and leaves the out-of-order counter
unchanged (both stated below the u64 wrap of `fetch_add`); in
particular, submitting ids 1, 2, 4, 3 to a fresh aggregator, with any
latencies, ends with `gaps_detected = 1` and `out_of_order = 1`. -/
theorem sequence_validation (s : LatencyStats) (id : Nat) (l : Int)
    (hlast : 0 < s.last_trade_id) (hid : id < U64MOD)
    (hl : s.last_trade_id < U64MOD) :
    ((id < s.last_trade_id → s.out_of_order + 1 < U64MOD →
        (s.update id l).out_of_order = s.out_of_order + 1
          ∧ (s.update id l).gaps_detected = s.gaps_detected)
     ∧ (s.last_trade_id + 1 < id →
        s.gaps_detected + (id - s.last_trade_id - 1) < U64MOD →
        (s.update id l).gaps_detected =
          s.gaps_detected + (id - s.last_trade_id - 1)
          ∧ (s.update id l).out_of_order = s.out_of_order))
    ∧ (∀ (n : Nat) (l1 l2 l3 l4 : Int),
        (foldUpdate (LatencyStats.new n)
            [(1, l1), (2, l2), (4, l3), (3, l4)]).gaps_detected = 1
        ∧ (foldUpdate (LatencyStats.new n)
            [(1, l1), (2, l2), (4, l3), (3, l4)]).out_of_order = 1) := by
  refine ⟨⟨?_, ?_⟩, ?_⟩
  · intro hlt hov
    have e := update_gapsOoo s id l
    rw [if_pos hlast, if_pos hlt] at e
    have e1 : (s.update id l).gaps_detected = s.gaps_detected :=
      congrArg Prod.fst e
    have e2 : (s.update id l).out_of_order = (s.out_of_order + 1) % U64MOD :=
      congrArg Prod.snd e
    exact ⟨by rw [e2, Nat.mod_eq_of_lt hov], e1⟩
  · intro hgt hov
    have hnlt : ¬ id < s.last_trade_id := by omega
    have hcond : (s.last_trade_id + 1) % U64MOD < id := by
      rw [Nat.mod_eq_of_lt (by omega)]
      exact hgt
    have e := update_gapsOoo s id l
    rw [if_pos hlast, if_neg hnlt, if_pos hcond] at e
    have e1 : (s.update id l).gaps_detected =
        (s.gaps_detected +
          (id + 2 * U64MOD - s.last_trade_id - 1) % U64MOD) % U64MOD :=
      congrArg Prod.fst e
    have e2 : (s.update id l).out_of_order = s.out_of_order :=
      congrArg Prod.snd e
    have harith : (id + 2 * U64MOD - s.last_trade_id - 1) % U64MOD =
        id - s.last_trade_id - 1 := by
      have h1 : id + 2 * U64MOD - s.last_trade_id - 1 =
          (id - s.last_trade_id - 1) + 2 * U64MOD := by omega
      rw [h1, Nat.add_mul_mod_self_right]
      exact Nat.mod_eq_of_lt (by omega)
    refine ⟨?_, e2⟩
    rw [e1, harith, Nat.mod_eq_of_lt hov]
  · intro n l1 l2 l3 l4
    constructor <;>
      norm_num [foldUpdate, LatencyStats.update, LatencyStats.new, U64MOD]

/-- Witness for C4 at concrete states: id 3 after id 7 is out of order,
id 12 after id 7 records a gap of 4. -/
theorem sequence_validation_witness :
    (((LatencyStats.new 5).update 7 0).update 3 0).out_of_order = 1
    ∧ (((LatencyStats.new 5).update 7 0).update 12 0).gaps_detected = 4 := by
  have h1 := sequence_validation ((LatencyStats.new 5).update 7 0) 3 0
    (by decide) (by decide) (by decide)
  have h2 := sequence_validation ((LatencyStats.new 5).update 7 0) 12 0
    (by decide) (by decide) (by decide)
  constructor
  · rw [(h1.1.1 (by decide) (by decide)).1]
    decide
  · rw [(h2.1.2 (by decide) (by decide)).1]
    decide

/-- C1 counterexample: the spec-modelled calibrator yields the nonzero
offset 5 on a successful sample, but the hot loop of src/src/main.rs
records latency `recv_ts - ts` with no calibration term, so at arrival
time 1700000000042 for event time 1700000000000 the recorded latency is
42 while the formula of the claim,
`arrival - event - calibration_offset`, gives 37: the calibration offset
is not applied to the latency computation. -/
theorem latency_counterexample :
    calibrate [(5, 100)] = 5
    ∧ extract_trade_data
        (str2bytes "\x7b\"t\":77,\"T\":1700000000000,\"pppppppppp\":1\x7d")
        = some (77, 1700000000000)
    ∧ (processMessage "m" true ⟨LatencyStats.new 10, []⟩ 1700000000042
        (str2bytes "\x7b\"t\":77,\"T\":1700000000000,\"pppppppppp\":1\x7d")).csv_lines
        = [fmtLine 77 1700000000000 1700000000042 42 "m"]
    ∧ claimLatency 1700000000042 1700000000000 (calibrate [(5, 100)]) = 37
    ∧ (42 : Int) ≠ 37 := by
  refine ⟨rfl, by decide, by decide, by decide, by decide⟩

/-- C1 (amended): for every message on which extraction succeeds, the
recorded latency is exactly `recv_ts - ts` (arrival minus event time, in
the milliseconds of the arrival clock) with no calibration correction
applied, both in the statistics update and in the persisted line; the
value is signed and is not clamped when negative in the persisted
record. -/
theorem latency_formula (machine_id : String) (st : MainState)
    (recv_ts : Nat) (text : List Nat) (tid ts : Nat)
    (h : extract_trade_data text = some (tid, ts)) :
    processMessage machine_id true st recv_ts text =
      { stats := st.stats.update tid ((recv_ts : Int) - (ts : Int)),
        csv_lines := st.csv_lines ++
          [fmtLine tid ts recv_ts ((recv_ts : Int) - (ts : Int)) machine_id] }
    ∧ ((recv_ts : Int) < (ts : Int) → (recv_ts : Int) - (ts : Int) < 0) := by
  constructor
  · unfold processMessage
    rw [h]
    rfl
  · intro hlt
    omega

/-- Witness for C1 (amended) on the Binance example payload of the spec,
with an arrival stamp 42 ms after the event time. -/
theorem latency_formula_witness :
    (processMessage "m" true ⟨LatencyStats.new 10, []⟩ 1769693418844
        (str2bytes "\x7b\"e\":\"trade\",\"E\":1769693418944,\"s\":\"BTCUSDT\",\"t\":5827967018,\"p\":\"88120.26\",\"q\":\"0.00008\",\"T\":1769693418802,\"m\":false\x7d")).csv_lines
      = [fmtLine 5827967018 1769693418802 1769693418844 42 "m"] := by
  have h := latency_formula "m" ⟨LatencyStats.new 10, []⟩ 1769693418844
    (str2bytes "\x7b\"e\":\"trade\",\"E\":1769693418944,\"s\":\"BTCUSDT\",\"t\":5827967018,\"p\":\"88120.26\",\"q\":\"0.00008\",\"T\":1769693418802,\"m\":false\x7d")
    5827967018 1769693418802 (by decide)
  rw [h.1]
  norm_num
